import Mathlib

/-!
Verification of the orthographic globe renderer shared by the three driver
scripts `VisualizePopularity.py`, `VisualizeDensity.py` and
`VisualizeChange.py` (directory `Geographic_Visualizations`).

The embedding works at two levels of numeric fidelity:

* an ideal model over `ℚ` in which Python float arithmetic is idealized as
  exact rational arithmetic (used for range/normalization properties, where
  sub-ulp rounding cannot affect the stated bounds), and
* a faithful IEEE-754 binary64 model (`roundDouble`, `fadd`, `fsub`, `fmul`,
  `fdiv`) implementing round-to-nearest, ties-to-even at 53 bits of
  precision, used for the exact boundary-value claims about the three color
  transfer functions, where one value is decided by a tie-break.

Geometry (rasterizer grid, overlay disks, camera rotation) is embedded over
an arbitrary linear ordered field so that the statements cover the real
numbers computed by the scripts while witnesses can be evaluated over `ℚ`.
-/

/-- Python `int()` applied to a float/rational: truncation toward zero. -/
def pyInt (q : ℚ) : ℤ := if q < 0 then -⌊-q⌋ else ⌊q⌋

/-- RGB color triples as produced by the color transfer functions. -/
abbrev Color := ℤ × ℤ × ℤ

/-- Source: VisualizePopularity.py, get_visitor_color (ideal rational model).
For t up to 0.7 a yellow-to-orange ramp, beyond that an orange-to-dark-red
ramp; no input clamping is performed by the source. -/
def get_visitor_color (t : ℚ) : Color :=
  if t ≤ 7/10 then
    (255, pyInt (255 * (7/10 - t) / (7/10)), 0)
  else
    (pyInt (255 - 116 * (t - 7/10) / (3/10)), 0, 0)

/-- Source: VisualizeDensity.py, get_density_color (ideal rational model).
The input is clamped into [0, 1] before the linear blue-to-dark gradient. -/
def get_density_color (t0 : ℚ) : Color :=
  (pyInt (46 * max 0 (min 1 t0)),
   pyInt (102 - 94 * max 0 (min 1 t0)),
   pyInt (255 - 171 * max 0 (min 1 t0)))

/-- Source: VisualizeChange.py, get_change_color (ideal rational model).
Diverging scale: red at 0, neutral gray at 0.5, purple at 1; no input
clamping is performed by the source. -/
def get_change_color (t : ℚ) : Color :=
  if t ≤ 1/2 then
    (pyInt (204 + 28 * (t * 2)), pyInt (0 + 232 * (t * 2)), pyInt (0 + 232 * (t * 2)))
  else
    (pyInt (232 - 125 * ((t - 1/2) * 2)),
     pyInt (232 - 188 * ((t - 1/2) * 2)),
     pyInt (232 - 87 * ((t - 1/2) * 2)))

/-- All three components of a color lie in the byte range [0, 255]. -/
def inRGB (c : Color) : Prop :=
  0 ≤ c.1 ∧ c.1 ≤ 255 ∧ 0 ≤ c.2.1 ∧ c.2.1 ≤ 255 ∧ 0 ≤ c.2.2 ∧ c.2.2 ≤ 255

lemma pyInt_of_nonneg {q : ℚ} (h : 0 ≤ q) : pyInt q = ⌊q⌋ := by
  simp [pyInt, not_lt.mpr h]

lemma pyInt_range {q : ℚ} (h0 : 0 ≤ q) (h1 : q ≤ 255) :
    0 ≤ pyInt q ∧ pyInt q ≤ 255 := by
  rw [pyInt_of_nonneg h0]
  constructor
  · exact_mod_cast Int.le_floor.mpr (by exact_mod_cast h0)
  · have h := (Int.floor_le q).trans h1
    exact_mod_cast h

/-- For inputs in [0, 1] the visitor scale stays inside the byte range. -/
lemma gvc_inRGB {t : ℚ} (h0 : 0 ≤ t) (h1 : t ≤ 1) : inRGB (get_visitor_color t) := by
  rw [get_visitor_color]
  by_cases hc : t ≤ 7/10
  · rw [if_pos hc]
    have hg := pyInt_range
      (show (0:ℚ) ≤ 255 * (7/10 - t) / (7/10) by linarith)
      (show 255 * (7/10 - t) / (7/10) ≤ 255 by linarith)
    exact ⟨by norm_num, by norm_num, hg.1, hg.2, by norm_num, by norm_num⟩
  · rw [if_neg hc]
    push_neg at hc
    have hg := pyInt_range
      (show (0:ℚ) ≤ 255 - 116 * (t - 7/10) / (3/10) by linarith)
      (show 255 - 116 * (t - 7/10) / (3/10) ≤ 255 by linarith)
    exact ⟨hg.1, hg.2, by norm_num, by norm_num, by norm_num, by norm_num⟩

/-- For inputs in [0, 1] the change scale stays inside the byte range. -/
lemma gcc_inRGB {t : ℚ} (h0 : 0 ≤ t) (h1 : t ≤ 1) : inRGB (get_change_color t) := by
  rw [get_change_color]
  by_cases hc : t ≤ 1/2
  · rw [if_pos hc]
    have hr := pyInt_range
      (show (0:ℚ) ≤ 204 + 28 * (t * 2) by linarith)
      (show 204 + 28 * (t * 2) ≤ 255 by linarith)
    have hg := pyInt_range
      (show (0:ℚ) ≤ 0 + 232 * (t * 2) by linarith)
      (show 0 + 232 * (t * 2) ≤ 255 by linarith)
    exact ⟨hr.1, hr.2, hg.1, hg.2, hg.1, hg.2⟩
  · rw [if_neg hc]
    push_neg at hc
    have hr := pyInt_range
      (show (0:ℚ) ≤ 232 - 125 * ((t - 1/2) * 2) by linarith)
      (show 232 - 125 * ((t - 1/2) * 2) ≤ 255 by linarith)
    have hg := pyInt_range
      (show (0:ℚ) ≤ 232 - 188 * ((t - 1/2) * 2) by linarith)
      (show 232 - 188 * ((t - 1/2) * 2) ≤ 255 by linarith)
    have hb := pyInt_range
      (show (0:ℚ) ≤ 232 - 87 * ((t - 1/2) * 2) by linarith)
      (show 232 - 87 * ((t - 1/2) * 2) ≤ 255 by linarith)
    exact ⟨hr.1, hr.2, hg.1, hg.2, hb.1, hb.2⟩

lemma clamp01_mem (t0 : ℚ) : 0 ≤ max 0 (min 1 t0) ∧ max 0 (min 1 t0) ≤ 1 :=
  ⟨le_max_left 0 _, max_le (by norm_num) (min_le_left 1 t0)⟩

/-- The density scale stays inside the byte range for every input, thanks to
the clamping of the input. -/
lemma gdc_inRGB (t0 : ℚ) : inRGB (get_density_color t0) := by
  obtain ⟨h0, h1⟩ := clamp01_mem t0
  rw [get_density_color]
  have hr := pyInt_range
    (show (0:ℚ) ≤ 46 * max 0 (min 1 t0) by linarith)
    (show 46 * max 0 (min 1 t0) ≤ 255 by linarith)
  have hg := pyInt_range
    (show (0:ℚ) ≤ 102 - 94 * max 0 (min 1 t0) by linarith)
    (show 102 - 94 * max 0 (min 1 t0) ≤ 255 by linarith)
  have hb := pyInt_range
    (show (0:ℚ) ≤ 255 - 171 * max 0 (min 1 t0) by linarith)
    (show 255 - 171 * max 0 (min 1 t0) ≤ 255 by linarith)
  exact ⟨hr.1, hr.2, hg.1, hg.2, hb.1, hb.2⟩

/-- The green component of the density scale is at least 8, so the density
scale never produces pure black. -/
lemma gdc_green_pos (t0 : ℚ) : 8 ≤ (get_density_color t0).2.1 := by
  obtain ⟨h0, h1⟩ := clamp01_mem t0
  have h : (8:ℚ) ≤ 102 - 94 * max 0 (min 1 t0) := by linarith
  show 8 ≤ pyInt (102 - 94 * max 0 (min 1 t0))
  rw [pyInt_of_nonneg (by linarith)]
  exact_mod_cast Int.le_floor.mpr (by exact_mod_cast h)

lemma gdc_ne_black (t0 : ℚ) : get_density_color t0 ≠ (0, 0, 0) := by
  intro h
  have := gdc_green_pos t0
  rw [h] at this
  norm_num at this

/-- Out-of-domain inputs on the density scale clamp to the lower endpoint. -/
lemma gdc_clamp_low {t : ℚ} (h : t ≤ 0) : get_density_color t = get_density_color 0 := by
  have : min 1 t = t := min_eq_right (by linarith)
  rw [get_density_color, get_density_color, this, max_eq_left h]
  norm_num

/-- Out-of-domain inputs on the density scale clamp to the upper endpoint. -/
lemma gdc_clamp_high {t : ℚ} (h : 1 ≤ t) : get_density_color t = get_density_color 1 := by
  rw [get_density_color, get_density_color, min_eq_left h]
  norm_num

/-- Round a rational to the nearest integer, breaking ties toward the even
integer, as IEEE-754 requires for the significand. -/
def roundHalfEven (x : ℚ) : ℤ :=
  if x - ⌊x⌋ < 1/2 then ⌊x⌋
  else if (1:ℚ)/2 < x - ⌊x⌋ then ⌊x⌋ + 1
  else if ⌊x⌋ % 2 = 0 then ⌊x⌋ else ⌊x⌋ + 1

/-- Round a rational to the nearest IEEE-754 binary64 value (53 significant
bits, round to nearest, ties to even). Overflow and subnormals are outside
the magnitude range exercised by the scripts and are not modelled. -/
def roundDouble (q : ℚ) : ℚ :=
  if q < 0 then
    -((roundHalfEven ((-q) * 2 ^ ((52:ℤ) - Int.log 2 (-q))) : ℚ) * 2 ^ (Int.log 2 (-q) - 52))
  else if q = 0 then 0
  else (roundHalfEven (q * 2 ^ ((52:ℤ) - Int.log 2 q)) : ℚ) * 2 ^ (Int.log 2 q - 52)

/-- Binary64 addition: exact sum, then rounding. -/
def fadd (a b : ℚ) : ℚ := roundDouble (a + b)

/-- Binary64 subtraction: exact difference, then rounding. -/
def fsub (a b : ℚ) : ℚ := roundDouble (a - b)

/-- Binary64 multiplication: exact product, then rounding. -/
def fmul (a b : ℚ) : ℚ := roundDouble (a * b)

/-- Binary64 division: exact quotient, then rounding. -/
def fdiv (a b : ℚ) : ℚ := roundDouble (a / b)

/-- The binary64 value denoted by a decimal literal in the Python source. -/
def dbl (q : ℚ) : ℚ := roundDouble q

lemma int_log2_eval {q : ℚ} {e : ℤ} (hq : 0 < q)
    (h1 : (2:ℚ) ^ e ≤ q) (h2 : q < (2:ℚ) ^ (e + 1)) : Int.log 2 q = e := by
  have hb : (1:ℕ) < 2 := by norm_num
  have hcast : ((2:ℕ):ℚ) = (2:ℚ) := by norm_num
  have hle : e ≤ Int.log 2 q := by
    rw [← Int.zpow_le_iff_le_log hb hq, hcast]
    exact h1
  have hlt : Int.log 2 q < e + 1 := by
    rw [← Int.lt_zpow_iff_log_lt hb hq, hcast]
    exact h2
  omega

/-- Evaluation rule for rounding a positive rational: supply the binade
exponent, the rounded significand and the recombined result. -/
lemma roundDouble_pos_eval (q r : ℚ) (e n : ℤ) (hq : 0 < q)
    (h1 : (2:ℚ) ^ e ≤ q) (h2 : q < (2:ℚ) ^ (e + 1))
    (hn : roundHalfEven (q * 2 ^ ((52:ℤ) - e)) = n)
    (hr : (n : ℚ) * 2 ^ (e - 52) = r) : roundDouble q = r := by
  rw [roundDouble, if_neg (not_lt.mpr hq.le), if_neg hq.ne.symm,
    int_log2_eval hq h1 h2, hn, hr]

/-- Evaluation rule for rounding a negative rational, phrased via the
rounding of its absolute value. -/
lemma roundDouble_neg_eval (q r : ℚ) (e n : ℤ) (hq : 0 < q)
    (h1 : (2:ℚ) ^ e ≤ q) (h2 : q < (2:ℚ) ^ (e + 1))
    (hn : roundHalfEven (q * 2 ^ ((52:ℤ) - e)) = n)
    (hr : (n : ℚ) * 2 ^ (e - 52) = r) : roundDouble (-q) = -r := by
  rw [roundDouble, if_pos (neg_neg_iff_pos.mpr hq), neg_neg,
    int_log2_eval hq h1 h2, hn, hr]

lemma roundDouble_zero : roundDouble 0 = 0 := by
  rw [roundDouble, if_neg (by norm_num), if_pos rfl]

/-- Source: VisualizePopularity.py, get_visitor_color under faithful binary64
semantics; every literal is the binary64 value of the decimal in the source
and every operation rounds, in Python evaluation order. -/
def get_visitor_color_fp (t : ℚ) : Color :=
  if t ≤ dbl (7/10) then
    (255, pyInt (fdiv (fmul 255 (fsub (dbl (7/10)) t)) (dbl (7/10))), 0)
  else
    (pyInt (fsub 255 (fdiv (fmul 116 (fsub t (dbl (7/10)))) (dbl (3/10)))), 0, 0)

/-- Source: VisualizeDensity.py, get_density_color under faithful binary64
semantics. Python max/min select an argument exactly, without rounding. -/
def get_density_color_fp (t0 : ℚ) : Color :=
  (pyInt (fmul 46 (max 0 (min 1 t0))),
   pyInt (fsub 102 (fmul 94 (max 0 (min 1 t0)))),
   pyInt (fsub 255 (fmul 171 (max 0 (min 1 t0)))))

/-- Source: VisualizeChange.py, get_change_color under faithful binary64
semantics; the decimal literal 0.5 is exactly 1/2 in binary64. -/
def get_change_color_fp (t : ℚ) : Color :=
  if t ≤ 1/2 then
    (pyInt (fadd 204 (fmul 28 (fmul t 2))),
     pyInt (fadd 0 (fmul 232 (fmul t 2))),
     pyInt (fadd 0 (fmul 232 (fmul t 2))))
  else
    (pyInt (fsub 232 (fmul 125 (fmul (fsub t (1/2)) 2))),
     pyInt (fsub 232 (fmul 188 (fmul (fsub t (1/2)) 2))),
     pyInt (fsub 232 (fmul 87 (fmul (fsub t (1/2)) 2))))
lemma gvc_fp_at0 : get_visitor_color_fp ((0 : ℚ)) = (255, 255, 0) := by
  have h1 : dbl ((7 : ℚ)/10) = ((3152519739159347 : ℚ)/4503599627370496) := by rw [dbl]; exact roundDouble_pos_eval _ _ (-1) (6305039478318694) (by norm_num) (by norm_num) (by norm_num) (by norm_num [roundHalfEven]) (by norm_num)
  have h2 : fsub ((3152519739159347 : ℚ)/4503599627370496) ((0 : ℚ)) = ((3152519739159347 : ℚ)/4503599627370496) := by rw [fsub]; exact roundDouble_pos_eval _ _ (-1) (6305039478318694) (by norm_num) (by norm_num) (by norm_num) (by norm_num [roundHalfEven]) (by norm_num)
  have h3 : fmul ((255 : ℚ)) ((3152519739159347 : ℚ)/4503599627370496) = ((357 : ℚ)/2) := by rw [fmul]; exact roundDouble_pos_eval _ _ (7) (6280410417856512) (by norm_num) (by norm_num) (by norm_num) (by norm_num [roundHalfEven]) (by norm_num)
  have h4 : fdiv ((357 : ℚ)/2) ((3152519739159347 : ℚ)/4503599627370496) = ((8972014882652161 : ℚ)/35184372088832) := by rw [fdiv]; exact roundDouble_pos_eval _ _ (7) (8972014882652161) (by norm_num) (by norm_num) (by norm_num) (by norm_num [roundHalfEven]) (by norm_num)
  simp only [get_visitor_color_fp]
  rw [h1]
  rw [if_pos (by norm_num)]
  rw [h2, h3, h4]
  norm_num [pyInt]

lemma gvc_fp_atc07 : get_visitor_color_fp (dbl (7/10)) = (255, 0, 0) := by
  have h1 : dbl ((7 : ℚ)/10) = ((3152519739159347 : ℚ)/4503599627370496) := by rw [dbl]; exact roundDouble_pos_eval _ _ (-1) (6305039478318694) (by norm_num) (by norm_num) (by norm_num) (by norm_num [roundHalfEven]) (by norm_num)
  have h2 : fsub ((3152519739159347 : ℚ)/4503599627370496) ((3152519739159347 : ℚ)/4503599627370496) = ((0 : ℚ)) := by rw [fsub]; rw [show ((3152519739159347 : ℚ)/4503599627370496) - ((3152519739159347 : ℚ)/4503599627370496) = (0 : ℚ) by norm_num]; exact roundDouble_zero
  have h3 : fmul ((255 : ℚ)) ((0 : ℚ)) = ((0 : ℚ)) := by rw [fmul]; rw [show ((255 : ℚ)) * ((0 : ℚ)) = (0 : ℚ) by norm_num]; exact roundDouble_zero
  have h4 : fdiv ((0 : ℚ)) ((3152519739159347 : ℚ)/4503599627370496) = ((0 : ℚ)) := by rw [fdiv]; rw [show ((0 : ℚ)) / ((3152519739159347 : ℚ)/4503599627370496) = (0 : ℚ) by norm_num]; exact roundDouble_zero
  simp only [get_visitor_color_fp]
  rw [h1]
  rw [if_pos (by norm_num)]
  rw [h2, h3, h4]
  norm_num [pyInt]

lemma gvc_fp_at1 : get_visitor_color_fp ((1 : ℚ)) = (139, 0, 0) := by
  have h1 : dbl ((7 : ℚ)/10) = ((3152519739159347 : ℚ)/4503599627370496) := by rw [dbl]; exact roundDouble_pos_eval _ _ (-1) (6305039478318694) (by norm_num) (by norm_num) (by norm_num) (by norm_num [roundHalfEven]) (by norm_num)
  have h2 : dbl ((3 : ℚ)/10) = ((5404319552844595 : ℚ)/18014398509481984) := by rw [dbl]; exact roundDouble_pos_eval _ _ (-2) (5404319552844595) (by norm_num) (by norm_num) (by norm_num) (by norm_num [roundHalfEven]) (by norm_num)
  have h3 : fsub ((1 : ℚ)) ((3152519739159347 : ℚ)/4503599627370496) = ((1351079888211149 : ℚ)/4503599627370496) := by rw [fsub]; exact roundDouble_pos_eval _ _ (-2) (5404319552844596) (by norm_num) (by norm_num) (by norm_num) (by norm_num [roundHalfEven]) (by norm_num)
  have h4 : fmul ((116 : ℚ)) ((1351079888211149 : ℚ)/4503599627370496) = ((4897664594765415 : ℚ)/140737488355328) := by rw [fmul]; exact roundDouble_pos_eval _ _ (5) (4897664594765415) (by norm_num) (by norm_num) (by norm_num) (by norm_num [roundHalfEven]) (by norm_num)
  have h5 : fdiv ((4897664594765415 : ℚ)/140737488355328) ((5404319552844595 : ℚ)/18014398509481984) = ((8162774324609025 : ℚ)/70368744177664) := by rw [fdiv]; exact roundDouble_pos_eval _ _ (6) (8162774324609025) (by norm_num) (by norm_num) (by norm_num) (by norm_num [roundHalfEven]) (by norm_num)
  have h6 : fsub ((255 : ℚ)) ((8162774324609025 : ℚ)/70368744177664) = ((139 : ℚ)) := by rw [fsub]; exact roundDouble_pos_eval _ _ (7) (4890627720347648) (by norm_num) (by norm_num) (by norm_num) (by norm_num [roundHalfEven]) (by norm_num)
  simp only [get_visitor_color_fp]
  rw [h1]
  rw [if_neg (by norm_num)]
  rw [h2, h3, h4, h5, h6]
  norm_num [pyInt]

lemma gvc_fp_at2 : get_visitor_color_fp ((2 : ℚ)) = (-247, 0, 0) := by
  have h1 : dbl ((7 : ℚ)/10) = ((3152519739159347 : ℚ)/4503599627370496) := by rw [dbl]; exact roundDouble_pos_eval _ _ (-1) (6305039478318694) (by norm_num) (by norm_num) (by norm_num) (by norm_num [roundHalfEven]) (by norm_num)
  have h2 : dbl ((3 : ℚ)/10) = ((5404319552844595 : ℚ)/18014398509481984) := by rw [dbl]; exact roundDouble_pos_eval _ _ (-2) (5404319552844595) (by norm_num) (by norm_num) (by norm_num) (by norm_num [roundHalfEven]) (by norm_num)
  have h3 : fsub ((2 : ℚ)) ((3152519739159347 : ℚ)/4503599627370496) = ((5854679515581645 : ℚ)/4503599627370496) := by rw [fsub]; exact roundDouble_pos_eval _ _ (0) (5854679515581645) (by norm_num) (by norm_num) (by norm_num) (by norm_num [roundHalfEven]) (by norm_num)
  have h4 : fmul ((116 : ℚ)) ((5854679515581645 : ℚ)/4503599627370496) = ((2652901655497933 : ℚ)/17592186044416) := by rw [fmul]; exact roundDouble_pos_eval _ _ (7) (5305803310995866) (by norm_num) (by norm_num) (by norm_num) (by norm_num [roundHalfEven]) (by norm_num)
  have h5 : fdiv ((2652901655497933 : ℚ)/17592186044416) ((5404319552844595 : ℚ)/18014398509481984) = ((2210751379581611 : ℚ)/4398046511104) := by rw [fdiv]; exact roundDouble_pos_eval _ _ (8) (8843005518326444) (by norm_num) (by norm_num) (by norm_num) (by norm_num [roundHalfEven]) (by norm_num)
  have h6 : fsub ((255 : ℚ)) ((2210751379581611 : ℚ)/4398046511104) = (-((1089249519250091 : ℚ)/4398046511104)) := by rw [fsub]; rw [show ((255 : ℚ)) - ((2210751379581611 : ℚ)/4398046511104) = -(((1089249519250091 : ℚ)/4398046511104)) by norm_num]; exact roundDouble_neg_eval _ _ (7) (8713996154000728) (by norm_num) (by norm_num) (by norm_num) (by norm_num [roundHalfEven]) (by norm_num)
  simp only [get_visitor_color_fp]
  rw [h1]
  rw [if_neg (by norm_num)]
  rw [h2, h3, h4, h5, h6]
  norm_num [pyInt]

lemma gdc_fp_at0 : get_density_color_fp ((0 : ℚ)) = (0, 102, 255) := by
  have h1 : fmul ((46 : ℚ)) ((0 : ℚ)) = ((0 : ℚ)) := by rw [fmul]; rw [show ((46 : ℚ)) * ((0 : ℚ)) = (0 : ℚ) by norm_num]; exact roundDouble_zero
  have h2 : fmul ((94 : ℚ)) ((0 : ℚ)) = ((0 : ℚ)) := by rw [fmul]; rw [show ((94 : ℚ)) * ((0 : ℚ)) = (0 : ℚ) by norm_num]; exact roundDouble_zero
  have h3 : fsub ((102 : ℚ)) ((0 : ℚ)) = ((102 : ℚ)) := by rw [fsub]; exact roundDouble_pos_eval _ _ (6) (7177611906121728) (by norm_num) (by norm_num) (by norm_num) (by norm_num [roundHalfEven]) (by norm_num)
  have h4 : fmul ((171 : ℚ)) ((0 : ℚ)) = ((0 : ℚ)) := by rw [fmul]; rw [show ((171 : ℚ)) * ((0 : ℚ)) = (0 : ℚ) by norm_num]; exact roundDouble_zero
  have h5 : fsub ((255 : ℚ)) ((0 : ℚ)) = ((255 : ℚ)) := by rw [fsub]; exact roundDouble_pos_eval _ _ (7) (8972014882652160) (by norm_num) (by norm_num) (by norm_num) (by norm_num [roundHalfEven]) (by norm_num)
  simp only [get_density_color_fp]
  rw [show max 0 (min 1 ((0 : ℚ))) = ((0 : ℚ)) by norm_num, h1, h2, h3, h4, h5]
  norm_num [pyInt]

lemma gdc_fp_at1 : get_density_color_fp ((1 : ℚ)) = (46, 8, 84) := by
  have h1 : fmul ((46 : ℚ)) ((1 : ℚ)) = ((46 : ℚ)) := by rw [fmul]; exact roundDouble_pos_eval _ _ (5) (6473924464345088) (by norm_num) (by norm_num) (by norm_num) (by norm_num [roundHalfEven]) (by norm_num)
  have h2 : fmul ((94 : ℚ)) ((1 : ℚ)) = ((94 : ℚ)) := by rw [fmul]; exact roundDouble_pos_eval _ _ (6) (6614661952700416) (by norm_num) (by norm_num) (by norm_num) (by norm_num [roundHalfEven]) (by norm_num)
  have h3 : fsub ((102 : ℚ)) ((94 : ℚ)) = ((8 : ℚ)) := by rw [fsub]; exact roundDouble_pos_eval _ _ (3) (4503599627370496) (by norm_num) (by norm_num) (by norm_num) (by norm_num [roundHalfEven]) (by norm_num)
  have h4 : fmul ((171 : ℚ)) ((1 : ℚ)) = ((171 : ℚ)) := by rw [fmul]; exact roundDouble_pos_eval _ _ (7) (6016527627190272) (by norm_num) (by norm_num) (by norm_num) (by norm_num [roundHalfEven]) (by norm_num)
  have h5 : fsub ((255 : ℚ)) ((171 : ℚ)) = ((84 : ℚ)) := by rw [fsub]; exact roundDouble_pos_eval _ _ (6) (5910974510923776) (by norm_num) (by norm_num) (by norm_num) (by norm_num [roundHalfEven]) (by norm_num)
  simp only [get_density_color_fp]
  rw [show max 0 (min 1 ((1 : ℚ))) = ((1 : ℚ)) by norm_num, h1, h2, h3, h4, h5]
  norm_num [pyInt]

lemma gcc_fp_athalf : get_change_color_fp ((1 : ℚ)/2) = (232, 232, 232) := by
  have h1 : fmul ((1 : ℚ)/2) ((2 : ℚ)) = ((1 : ℚ)) := by rw [fmul]; exact roundDouble_pos_eval _ _ (0) (4503599627370496) (by norm_num) (by norm_num) (by norm_num) (by norm_num [roundHalfEven]) (by norm_num)
  have h2 : fmul ((28 : ℚ)) ((1 : ℚ)) = ((28 : ℚ)) := by rw [fmul]; exact roundDouble_pos_eval _ _ (4) (7881299347898368) (by norm_num) (by norm_num) (by norm_num) (by norm_num [roundHalfEven]) (by norm_num)
  have h3 : fadd ((204 : ℚ)) ((28 : ℚ)) = ((232 : ℚ)) := by rw [fadd]; exact roundDouble_pos_eval _ _ (7) (8162774324609024) (by norm_num) (by norm_num) (by norm_num) (by norm_num [roundHalfEven]) (by norm_num)
  have h4 : fmul ((232 : ℚ)) ((1 : ℚ)) = ((232 : ℚ)) := by rw [fmul]; exact roundDouble_pos_eval _ _ (7) (8162774324609024) (by norm_num) (by norm_num) (by norm_num) (by norm_num [roundHalfEven]) (by norm_num)
  have h5 : fadd ((0 : ℚ)) ((232 : ℚ)) = ((232 : ℚ)) := by rw [fadd]; exact roundDouble_pos_eval _ _ (7) (8162774324609024) (by norm_num) (by norm_num) (by norm_num) (by norm_num [roundHalfEven]) (by norm_num)
  simp only [get_change_color_fp]
  rw [h1]
  rw [if_pos (by norm_num)]
  rw [h2, h3, h4, h5]
  norm_num [pyInt]

lemma gcc_fp_at0 : get_change_color_fp ((0 : ℚ)) = (204, 0, 0) := by
  have h1 : fmul ((0 : ℚ)) ((2 : ℚ)) = ((0 : ℚ)) := by rw [fmul]; rw [show ((0 : ℚ)) * ((2 : ℚ)) = (0 : ℚ) by norm_num]; exact roundDouble_zero
  have h2 : fmul ((28 : ℚ)) ((0 : ℚ)) = ((0 : ℚ)) := by rw [fmul]; rw [show ((28 : ℚ)) * ((0 : ℚ)) = (0 : ℚ) by norm_num]; exact roundDouble_zero
  have h3 : fadd ((204 : ℚ)) ((0 : ℚ)) = ((204 : ℚ)) := by rw [fadd]; exact roundDouble_pos_eval _ _ (7) (7177611906121728) (by norm_num) (by norm_num) (by norm_num) (by norm_num [roundHalfEven]) (by norm_num)
  have h4 : fmul ((232 : ℚ)) ((0 : ℚ)) = ((0 : ℚ)) := by rw [fmul]; rw [show ((232 : ℚ)) * ((0 : ℚ)) = (0 : ℚ) by norm_num]; exact roundDouble_zero
  have h5 : fadd ((0 : ℚ)) ((0 : ℚ)) = ((0 : ℚ)) := by rw [fadd]; rw [show ((0 : ℚ)) + ((0 : ℚ)) = (0 : ℚ) by norm_num]; exact roundDouble_zero
  simp only [get_change_color_fp]
  rw [h1]
  rw [if_pos (by norm_num)]
  rw [h2, h3, h4, h5]
  norm_num [pyInt]

lemma gcc_fp_at1 : get_change_color_fp ((1 : ℚ)) = (107, 44, 145) := by
  have h1 : fsub ((1 : ℚ)) ((1 : ℚ)/2) = ((1 : ℚ)/2) := by rw [fsub]; exact roundDouble_pos_eval _ _ (-1) (4503599627370496) (by norm_num) (by norm_num) (by norm_num) (by norm_num [roundHalfEven]) (by norm_num)
  have h2 : fmul ((1 : ℚ)/2) ((2 : ℚ)) = ((1 : ℚ)) := by rw [fmul]; exact roundDouble_pos_eval _ _ (0) (4503599627370496) (by norm_num) (by norm_num) (by norm_num) (by norm_num [roundHalfEven]) (by norm_num)
  have h3 : fmul ((125 : ℚ)) ((1 : ℚ)) = ((125 : ℚ)) := by rw [fmul]; exact roundDouble_pos_eval _ _ (6) (8796093022208000) (by norm_num) (by norm_num) (by norm_num) (by norm_num [roundHalfEven]) (by norm_num)
  have h4 : fsub ((232 : ℚ)) ((125 : ℚ)) = ((107 : ℚ)) := by rw [fsub]; exact roundDouble_pos_eval _ _ (6) (7529455627010048) (by norm_num) (by norm_num) (by norm_num) (by norm_num [roundHalfEven]) (by norm_num)
  have h5 : fmul ((188 : ℚ)) ((1 : ℚ)) = ((188 : ℚ)) := by rw [fmul]; exact roundDouble_pos_eval _ _ (7) (6614661952700416) (by norm_num) (by norm_num) (by norm_num) (by norm_num [roundHalfEven]) (by norm_num)
  have h6 : fsub ((232 : ℚ)) ((188 : ℚ)) = ((44 : ℚ)) := by rw [fsub]; exact roundDouble_pos_eval _ _ (5) (6192449487634432) (by norm_num) (by norm_num) (by norm_num) (by norm_num [roundHalfEven]) (by norm_num)
  have h7 : fmul ((87 : ℚ)) ((1 : ℚ)) = ((87 : ℚ)) := by rw [fmul]; exact roundDouble_pos_eval _ _ (6) (6122080743456768) (by norm_num) (by norm_num) (by norm_num) (by norm_num [roundHalfEven]) (by norm_num)
  have h8 : fsub ((232 : ℚ)) ((87 : ℚ)) = ((145 : ℚ)) := by rw [fsub]; exact roundDouble_pos_eval _ _ (7) (5101733952880640) (by norm_num) (by norm_num) (by norm_num) (by norm_num [roundHalfEven]) (by norm_num)
  simp only [get_change_color_fp]
  rw [h1]
  rw [if_neg (by norm_num)]
  rw [h2, h3, h4, h5, h6, h7, h8]
  norm_num [pyInt]

/-- C1: the three color transfer functions, evaluated under faithful binary64
float semantics, produce exactly the spec-listed RGB triples at the listed
boundary inputs. The visitor value at t = 1.0 is decided by a round-to-even
tie in the final subtraction and still lands on (139, 0, 0); the ideal
rational model agrees with its binary64 counterpart on all eight inputs. -/
theorem c1_color_boundary_values :
    get_visitor_color_fp 0 = (255, 255, 0) ∧
    get_visitor_color_fp (dbl (7/10)) = (255, 0, 0) ∧
    get_visitor_color_fp 1 = (139, 0, 0) ∧
    get_density_color_fp 0 = (0, 102, 255) ∧
    get_density_color_fp 1 = (46, 8, 84) ∧
    get_change_color_fp (1/2) = (232, 232, 232) ∧
    get_change_color_fp 0 = (204, 0, 0) ∧
    get_change_color_fp 1 = (107, 44, 145) ∧
    get_visitor_color 0 = (255, 255, 0) ∧
    get_visitor_color (7/10) = (255, 0, 0) ∧
    get_visitor_color 1 = (139, 0, 0) ∧
    get_density_color 0 = (0, 102, 255) ∧
    get_density_color 1 = (46, 8, 84) ∧
    get_change_color (1/2) = (232, 232, 232) ∧
    get_change_color 0 = (204, 0, 0) ∧
    get_change_color 1 = (107, 44, 145) := by
  refine ⟨gvc_fp_at0, gvc_fp_atc07, gvc_fp_at1, gdc_fp_at0, gdc_fp_at1,
    gcc_fp_athalf, gcc_fp_at0, gcc_fp_at1, ?_, ?_, ?_, ?_, ?_, ?_, ?_, ?_⟩ <;>
    norm_num [get_visitor_color, get_density_color, get_change_color, pyInt]

/-- C2 counterexample: the visitor scale does not clamp. Under faithful
binary64 semantics the out-of-domain input t = 2.0 produces the triple
(-247, 0, 0), whose red component lies outside [0, 255] and which differs
from the value at the nearest domain endpoint t = 1.0. -/
theorem c2_counterexample :
    get_visitor_color_fp 2 = (-247, 0, 0) ∧
    get_visitor_color_fp 1 = (139, 0, 0) ∧
    (get_visitor_color_fp 2).1 < 0 := by
  refine ⟨gvc_fp_at2, gvc_fp_at1, ?_⟩
  rw [gvc_fp_at2]
  norm_num

/-- C2 amended: only the density scale clamps gracefully; out-of-domain
inputs behave as the nearest endpoint and its components always lie in
[0, 255]. The visitor and change scales are in byte range only for inputs
inside their domain [0, 1] (ideal rational model of the float formulas). -/
theorem c2_clamping (t : ℚ) :
    inRGB (get_density_color t) ∧
    (t ≤ 0 → get_density_color t = get_density_color 0) ∧
    (1 ≤ t → get_density_color t = get_density_color 1) ∧
    (0 ≤ t → t ≤ 1 → inRGB (get_visitor_color t) ∧ inRGB (get_change_color t)) :=
  ⟨gdc_inRGB t, fun h => gdc_clamp_low h, fun h => gdc_clamp_high h,
   fun h0 h1 => ⟨gvc_inRGB h0 h1, gcc_inRGB h0 h1⟩⟩

/-- C2 witness: the clamping theorem applied at the concrete inputs 2, -1
and 1/2, discharging each hypothesis. -/
theorem c2_clamping_witness :
    get_density_color 2 = get_density_color 1 ∧
    get_density_color (-1) = get_density_color 0 ∧
    inRGB (get_visitor_color (1/2)) ∧ inRGB (get_change_color (1/2)) :=
  ⟨(c2_clamping 2).2.2.1 (by norm_num),
   (c2_clamping (-1)).2.1 (by norm_num),
   ((c2_clamping (1/2)).2.2.2 (by norm_num) (by norm_num)).1,
   ((c2_clamping (1/2)).2.2.2 (by norm_num) (by norm_num)).2⟩

/-- Python min over a nonempty list, as a fold of binary min. -/
def pyMin : List ℚ → Option ℚ
  | [] => none
  | x :: xs => some (xs.foldl min x)

/-- Python max over a nonempty list, as a fold of binary max. -/
def pyMax : List ℚ → Option ℚ
  | [] => none
  | x :: xs => some (xs.foldl max x)

lemma foldl_min_le_init (xs : List ℚ) (a : ℚ) : xs.foldl min a ≤ a := by
  induction xs generalizing a with
  | nil => exact le_refl a
  | cons x xs ih =>
    exact (ih (min a x)).trans (min_le_left a x)

lemma foldl_min_le_mem {xs : List ℚ} {x : ℚ} (hx : x ∈ xs) (a : ℚ) :
    xs.foldl min a ≤ x := by
  induction xs generalizing a with
  | nil => cases hx
  | cons y ys ih =>
    rcases List.mem_cons.mp hx with h | h
    · subst h
      exact (foldl_min_le_init ys (min a x)).trans (min_le_right a x)
    · exact ih h (min a y)

lemma le_foldl_min {xs : List ℚ} {c a : ℚ} (ha : c ≤ a) (hall : ∀ x ∈ xs, c ≤ x) :
    c ≤ xs.foldl min a := by
  induction xs generalizing a with
  | nil => exact ha
  | cons y ys ih =>
    exact ih (le_min ha (hall y (List.mem_cons_self y ys)))
      (fun x hx => hall x (List.mem_cons_of_mem y hx))

lemma init_le_foldl_max (xs : List ℚ) (a : ℚ) : a ≤ xs.foldl max a := by
  induction xs generalizing a with
  | nil => exact le_refl a
  | cons x xs ih =>
    exact (le_max_left a x).trans (ih (max a x))

lemma mem_le_foldl_max {xs : List ℚ} {x : ℚ} (hx : x ∈ xs) (a : ℚ) :
    x ≤ xs.foldl max a := by
  induction xs generalizing a with
  | nil => cases hx
  | cons y ys ih =>
    rcases List.mem_cons.mp hx with h | h
    · subst h
      exact (le_max_right a x).trans (init_le_foldl_max ys (max a x))
    · exact ih h (max a y)

lemma foldl_max_le {xs : List ℚ} {c a : ℚ} (ha : a ≤ c) (hall : ∀ x ∈ xs, x ≤ c) :
    xs.foldl max a ≤ c := by
  induction xs generalizing a with
  | nil => exact ha
  | cons y ys ih =>
    exact ih (max_le ha (hall y (List.mem_cons_self y ys)))
      (fun x hx => hall x (List.mem_cons_of_mem y hx))

/-- Source: VisualizePopularity.py lines 128-134. The normalized visitor
value of one feature: value range guarded against zero, then linear
rescaling of the feature's value. -/
def visitorNorm (vs : List ℚ) (v : ℚ) : ℚ :=
  match pyMin vs, pyMax vs with
  | some mn, some mx => (v - mn) / (if mx - mn = 0 then 1 else mx - mn)
  | _, _ => 0

/-- Source: VisualizePopularity.py lines 128-135. Color assignment of the
popularity driver; None models the early return on an empty feature set. -/
def popularityColors (vs : List ℚ) : Option (List Color) :=
  match vs with
  | [] => none
  | _ :: _ => some (vs.map fun v => get_visitor_color (visitorNorm vs v))

/-- Source: VisualizeChange.py lines 218-228 (and 242-250 for the percent
variant). The normalized delta of one feature: the maximal absolute delta
guarded against zero, then remapping into [0, 1]. -/
def changeNorm (ds : List ℚ) (d : ℚ) : ℚ :=
  match pyMax (ds.map fun x => |x|) with
  | some m0 => d / (if m0 = 0 then 1 else m0) * (1/2) + 1/2
  | none => 0

/-- Source: VisualizeChange.py lines 218-228. Color assignment of the change
driver over the list of per-feature deltas. -/
def changeColors (ds : List ℚ) : Option (List Color) :=
  match ds with
  | [] => none
  | _ :: _ => some (ds.map fun d => get_change_color (changeNorm ds d))

lemma visitorNorm_cons (x : ℚ) (xs : List ℚ) (v : ℚ) :
    visitorNorm (x :: xs) v =
      (v - xs.foldl min x) /
        (if xs.foldl max x - xs.foldl min x = 0 then 1 else xs.foldl max x - xs.foldl min x) :=
  rfl

lemma changeNorm_cons (a : ℚ) (ts : List ℚ) (d : ℚ) :
    changeNorm (a :: ts) d =
      d / (if (ts.map fun x => |x|).foldl max |a| = 0 then 1
           else (ts.map fun x => |x|).foldl max |a|) * (1/2) + 1/2 :=
  rfl

/-- The popularity driver's normalized value lies in [0, 1] for every member
of a nonempty feature list, including the zero-range guard case. -/
lemma visitorNorm_mem_unit {x : ℚ} {xs : List ℚ} {v : ℚ} (hv : v ∈ x :: xs) :
    0 ≤ visitorNorm (x :: xs) v ∧ visitorNorm (x :: xs) v ≤ 1 := by
  have hmn : xs.foldl min x ≤ v := by
    rcases List.mem_cons.mp hv with h | h
    · subst h; exact foldl_min_le_init xs v
    · exact foldl_min_le_mem h x
  have hmx : v ≤ xs.foldl max x := by
    rcases List.mem_cons.mp hv with h | h
    · subst h; exact init_le_foldl_max xs v
    · exact mem_le_foldl_max h x
  rw [visitorNorm_cons]
  by_cases hz : xs.foldl max x - xs.foldl min x = 0
  · rw [if_pos hz]
    constructor
    · apply div_nonneg (by linarith) (by norm_num)
    · rw [div_one]; linarith
  · rw [if_neg hz]
    have hlt : xs.foldl min x < xs.foldl max x := lt_of_le_of_ne (by linarith) (by
      intro h; exact hz (by linarith))
    constructor
    · exact div_nonneg (by linarith) (by linarith)
    · rw [div_le_one (by linarith)]; linarith

/-- The change driver's normalized value lies in [0, 1] for every member of
a nonempty delta list, including the zero-range guard case. -/
lemma changeNorm_mem_unit {a : ℚ} {ts : List ℚ} {d : ℚ} (hd : d ∈ a :: ts) :
    0 ≤ changeNorm (a :: ts) d ∧ changeNorm (a :: ts) d ≤ 1 := by
  have habs : |d| ∈ |a| :: ts.map fun x => |x| := by
    rcases List.mem_cons.mp hd with h | h
    · subst h; exact List.mem_cons_self _ _
    · exact List.mem_cons_of_mem _ (List.mem_map_of_mem (fun x => |x|) h)
  have hdm : |d| ≤ (ts.map fun x => |x|).foldl max |a| := by
    rcases List.mem_cons.mp habs with h | h
    · rw [h]; exact init_le_foldl_max _ _
    · exact mem_le_foldl_max h _
  have hm0 : 0 ≤ (ts.map fun x => |x|).foldl max |a| :=
    (abs_nonneg a).trans (init_le_foldl_max _ _)
  rw [changeNorm_cons]
  by_cases hz : (ts.map fun x => |x|).foldl max |a| = 0
  · have hdz : |d| ≤ 0 := hz ▸ hdm
    have hd0 : d = 0 := abs_eq_zero.mp (le_antisymm hdz (abs_nonneg d))
    rw [if_pos hz, hd0]
    norm_num
  · rw [if_neg hz]
    have hpos : 0 < (ts.map fun x => |x|).foldl max |a| := lt_of_le_of_ne hm0 (Ne.symm hz)
    obtain ⟨hlo, hhi⟩ := abs_le.mp hdm
    constructor
    · have h1 : (-1 : ℚ) ≤ d / (ts.map fun x => |x|).foldl max |a| := by
        rw [neg_le, ← neg_div]
        rw [div_le_one hpos]
        linarith
      linarith
    · have h1 : d / (ts.map fun x => |x|).foldl max |a| ≤ 1 := by
        rw [div_le_one hpos]
        linarith
      linarith

/-- C10: the normalized value each driver passes to its unclamped color
transfer function always lies in [0, 1] (popularity normalization with its
zero-range guard; change normalization because every delta is bounded by the
maximal absolute delta), so the absence of input clamping in
get_visitor_color and get_change_color never produces an RGB component
outside [0, 255]. Ideal rational model of the float arithmetic. -/
theorem c10_driver_normalization_safe (x : ℚ) (xs : List ℚ) (v : ℚ) (hv : v ∈ x :: xs)
    (a : ℚ) (ts : List ℚ) (d : ℚ) (hd : d ∈ a :: ts) (t : ℚ) (h0 : 0 ≤ t) (h1 : t ≤ 1) :
    (0 ≤ visitorNorm (x :: xs) v ∧ visitorNorm (x :: xs) v ≤ 1) ∧
    (0 ≤ changeNorm (a :: ts) d ∧ changeNorm (a :: ts) d ≤ 1) ∧
    inRGB (get_visitor_color (visitorNorm (x :: xs) v)) ∧
    inRGB (get_change_color (changeNorm (a :: ts) d)) ∧
    inRGB (get_visitor_color t) ∧ inRGB (get_change_color t) := by
  obtain ⟨hv0, hv1⟩ := visitorNorm_mem_unit hv
  obtain ⟨hd0, hd1⟩ := changeNorm_mem_unit hd
  exact ⟨⟨hv0, hv1⟩, ⟨hd0, hd1⟩, gvc_inRGB hv0 hv1, gcc_inRGB hd0 hd1,
    gvc_inRGB h0 h1, gcc_inRGB h0 h1⟩

/-- C10 witness: the normalization-safety theorem applied to the concrete
feature lists [0, 4] (visitor counts) and [-3, 1] (deltas) and t = 1. -/
theorem c10_driver_normalization_safe_witness :
    (0 ≤ visitorNorm [0, 4] 4 ∧ visitorNorm [0, 4] 4 ≤ 1) ∧
    (0 ≤ changeNorm [-3, 1] (-3) ∧ changeNorm [-3, 1] (-3) ≤ 1) ∧
    inRGB (get_visitor_color (visitorNorm [0, 4] 4)) ∧
    inRGB (get_change_color (changeNorm [-3, 1] (-3))) ∧
    inRGB (get_visitor_color 1) ∧ inRGB (get_change_color 1) :=
  c10_driver_normalization_safe 0 [4] 4 (by simp) (-3) [1] (-3) (by simp)
    1 (by norm_num) (by norm_num)

instance : DecidableRel (fun a b : ℚ => b ≤ a) :=
  fun a b => inferInstanceAs (Decidable (b ≤ a))

instance : IsTotal ℚ (fun a b : ℚ => b ≤ a) :=
  ⟨fun a b => le_total b a⟩

instance : IsTrans ℚ (fun a b : ℚ => b ≤ a) :=
  ⟨fun _ _ _ h1 h2 => le_trans h2 h1⟩

/-- Python sorted(densities, reverse=True): the descending sort of the list.
As a list of values this is independent of the sorting algorithm, so an
insertion sort stands in for Python timsort. -/
def sortedDescQ (l : List ℚ) : List ℚ := l.insertionSort (fun a b => b ≤ a)

/-- Source: VisualizeDensity.py line 137, sorted(densities, reverse=True)[1]:
the second entry of the descending sort; None models the IndexError raised
when fewer than two features exist. -/
def secondLargest (ds : List ℚ) : Option ℚ := (sortedDescQ ds).get? 1

/-- Source: VisualizeDensity.py lines 135-147. Color assignment of the
density driver: the feature equal to the true maximum is forced to black,
everyone else is normalized with the second-largest value as effective
maximum, with the zero-range divisor guard. -/
def densityNormalize (ds : List ℚ) : Option (List Color) :=
  match secondLargest ds, pyMin ds, pyMax ds with
  | some m2, some mn, some mx =>
      some (ds.map fun d =>
        if d = mx then (0, 0, 0)
        else get_density_color ((d - mn) / (if m2 - mn = 0 then 1 else m2 - mn)))
  | _, _, _ => none

lemma count_map_black (l : List ℚ) (f : ℚ → Color) (M : ℚ)
    (hf : ∀ d, f d = (0, 0, 0) ↔ d = M) :
    (l.map f).count (0, 0, 0) = l.count M := by
  induction l with
  | nil => rfl
  | cons a t ih =>
    rw [List.map_cons, List.count_cons, List.count_cons, ih]
    by_cases h : a = M
    · have h1 : (f a == (0, 0, 0)) = true := beq_iff_eq.mpr ((hf a).mpr h)
      have h2 : (a == M) = true := beq_iff_eq.mpr h
      rw [h1, h2]
    · have h1 : (f a == (0, 0, 0)) = false :=
        beq_eq_false_iff_ne.mpr (fun hc => h ((hf a).mp hc))
      have h2 : (a == M) = false := beq_eq_false_iff_ne.mpr h
      rw [h1, h2]

/-- C3 counterexample: a singleton feature set has a unique maximum density,
yet the density driver raises IndexError on sorted(densities, reverse=True)[1]
(modelled as none) before any feature is colored, so the unique maximum
feature is not colored black. -/
theorem c3_counterexample : densityNormalize [(2 : ℚ)] = none := rfl

/-- C3 amended: for every feature set with at least two features and a unique
maximum density, the density driver succeeds, exactly the maximum-valued
feature is colored pure black, and every other feature is normalized with
the second entry of the descending sort (the second-largest value) as the
effective maximum, the divisor being replaced by 1 when that range is zero.
The sort is a descending-ordered permutation of the density list. -/
theorem c3_density_unique_max_black (d0 : ℚ) (rest : List ℚ) (h2 : rest ≠ [])
    (hu : (d0 :: rest).count (rest.foldl max d0) = 1) :
    ∃ m2 cs, secondLargest (d0 :: rest) = some m2 ∧
      densityNormalize (d0 :: rest) = some cs ∧
      (sortedDescQ (d0 :: rest)).Perm (d0 :: rest) ∧
      List.Sorted (fun a b : ℚ => b ≤ a) (sortedDescQ (d0 :: rest)) ∧
      cs.length = (d0 :: rest).length ∧
      cs.count (0, 0, 0) = 1 ∧
      (∀ i (hi : i < (d0 :: rest).length) (hi2 : i < cs.length),
        ((d0 :: rest).get ⟨i, hi⟩ = rest.foldl max d0 → cs.get ⟨i, hi2⟩ = (0, 0, 0)) ∧
        ((d0 :: rest).get ⟨i, hi⟩ ≠ rest.foldl max d0 →
          cs.get ⟨i, hi2⟩ = get_density_color
            (((d0 :: rest).get ⟨i, hi⟩ - rest.foldl min d0) /
              (if m2 - rest.foldl min d0 = 0 then 1 else m2 - rest.foldl min d0)) ∧
          cs.get ⟨i, hi2⟩ ≠ (0, 0, 0))) := by
  have hlen : (sortedDescQ (d0 :: rest)).length = (d0 :: rest).length :=
    (List.perm_insertionSort _ _).length_eq
  have hlt : 1 < (sortedDescQ (d0 :: rest)).length := by
    rw [hlen]
    cases rest with
    | nil => exact absurd rfl h2
    | cons b bs => simp
  set M := rest.foldl max d0 with hM
  set mn := rest.foldl min d0 with hmndef
  set m2 := (sortedDescQ (d0 :: rest)).get ⟨1, hlt⟩ with hm2def
  have hsl : secondLargest (d0 :: rest) = some m2 := by
    rw [secondLargest, List.get?_eq_get hlt]
  have hpmin : pyMin (d0 :: rest) = some mn := rfl
  have hpmax : pyMax (d0 :: rest) = some M := rfl
  have hdn : densityNormalize (d0 :: rest) =
      some ((d0 :: rest).map fun d =>
        if d = M then (0, 0, 0)
        else get_density_color ((d - mn) / (if m2 - mn = 0 then 1 else m2 - mn))) := by
    rw [densityNormalize, hsl, hpmin, hpmax]
  have hf : ∀ d, (if d = M then ((0 : ℤ), (0 : ℤ), (0 : ℤ))
      else get_density_color ((d - mn) / (if m2 - mn = 0 then 1 else m2 - mn))) = (0, 0, 0)
      ↔ d = M := by
    intro d
    by_cases h : d = M
    · rw [if_pos h]
      exact ⟨fun _ => h, fun _ => rfl⟩
    · rw [if_neg h]
      exact ⟨fun hc => absurd hc (gdc_ne_black _), fun hc => absurd hc h⟩
  refine ⟨m2, _, hsl, hdn, List.perm_insertionSort _ _, List.sorted_insertionSort _ _,
    List.length_map _ _, ?_, ?_⟩
  · rw [count_map_black _ _ M hf]
    exact hu
  · intro i hi hi2
    have hget : (List.map (fun d =>
        if d = M then ((0 : ℤ), (0 : ℤ), (0 : ℤ))
        else get_density_color ((d - mn) / (if m2 - mn = 0 then 1 else m2 - mn)))
          (d0 :: rest)).get ⟨i, hi2⟩ =
        (fun d => if d = M then ((0 : ℤ), (0 : ℤ), (0 : ℤ))
          else get_density_color ((d - mn) / (if m2 - mn = 0 then 1 else m2 - mn)))
          ((d0 :: rest).get ⟨i, hi⟩) := List.get_map _
    constructor
    · intro hmax
      simp only [hget]
      rw [if_pos hmax]
    · intro hne
      simp only [hget]
      rw [if_neg hne]
      exact ⟨rfl, gdc_ne_black _⟩

/-- C3 witness: the amended density theorem applied to the concrete feature
set [1, 3], whose unique maximum 3 is colored black. -/
theorem c3_density_unique_max_black_witness :
    ∃ m2 cs, secondLargest [(1 : ℚ), 3] = some m2 ∧
      densityNormalize [(1 : ℚ), 3] = some cs ∧
      (sortedDescQ [(1 : ℚ), 3]).Perm [(1 : ℚ), 3] ∧
      List.Sorted (fun a b : ℚ => b ≤ a) (sortedDescQ [(1 : ℚ), 3]) ∧
      cs.length = ([(1 : ℚ), 3]).length ∧
      cs.count (0, 0, 0) = 1 ∧
      (∀ i (hi : i < ([(1 : ℚ), 3]).length) (hi2 : i < cs.length),
        (([(1 : ℚ), 3]).get ⟨i, hi⟩ = List.foldl max 1 [3] →
          cs.get ⟨i, hi2⟩ = (0, 0, 0)) ∧
        (([(1 : ℚ), 3]).get ⟨i, hi⟩ ≠ List.foldl max 1 [3] →
          cs.get ⟨i, hi2⟩ = get_density_color
            ((([(1 : ℚ), 3]).get ⟨i, hi⟩ - List.foldl min 1 [3]) /
              (if m2 - List.foldl min 1 [3] = 0 then 1 else m2 - List.foldl min 1 [3])) ∧
          cs.get ⟨i, hi2⟩ ≠ (0, 0, 0))) :=
  c3_density_unique_max_black 1 [3] (by simp)
    (by
      show List.count (max 1 3) [(1 : ℚ), 3] = 1
      rw [max_eq_right (by norm_num : (1 : ℚ) ≤ 3)]
      norm_num [List.count_cons, beq_iff_eq])

lemma foldl_min_all_eq {xs : List ℚ} {c : ℚ} (h : ∀ x ∈ xs, x = c) :
    xs.foldl min c = c :=
  le_antisymm (foldl_min_le_init xs c)
    (le_foldl_min (le_refl c) fun x hx => (h x hx).symm.le)

lemma foldl_max_all_eq {xs : List ℚ} {c : ℚ} (h : ∀ x ∈ xs, x = c) :
    xs.foldl max c = c :=
  le_antisymm (foldl_max_le (le_refl c) fun x hx => (h x hx).le)
    (init_le_foldl_max xs c)

/-- C4 counterexample: the singleton feature set [5] is non-empty and all its
features share one value (zero range), yet the density variant is fatal on
it: sorted(densities, reverse=True)[1] raises IndexError (modelled none)
before any feature is colored. -/
theorem c4_counterexample : densityNormalize [(5 : ℚ)] = none := rfl

/-- C4 amended: degenerate normalization (all features sharing one value) is
never fatal in the popularity and change variants for any non-empty feature
set, and in the density variant for feature sets of at least two features;
the zero divisor is replaced by 1.0 and every feature receives the same
single color (in the density variant all features equal the maximum, so the
uniform color is black). A singleton density set instead raises IndexError. -/
theorem c4_degenerate_normalization (v c w : ℚ) (n m k : ℕ)
    (hn : n ≠ 0) (hm : m ≠ 0) (hk : 2 ≤ k) :
    popularityColors (List.replicate n v) =
      some (List.replicate n (get_visitor_color 0)) ∧
    changeColors (List.replicate m c) =
      some (List.replicate m (get_change_color (changeNorm (List.replicate m c) c))) ∧
    densityNormalize (List.replicate k w) = some (List.replicate k (0, 0, 0)) := by
  refine ⟨?_, ?_, ?_⟩
  · obtain ⟨j, rfl⟩ : ∃ j, n = j + 1 := ⟨n - 1, by omega⟩
    have hrep : ∀ x ∈ List.replicate j v, x = v := fun x hx => List.eq_of_mem_replicate hx
    have hnormv : get_visitor_color (visitorNorm (v :: List.replicate j v) v) =
        get_visitor_color 0 := by
      rw [visitorNorm_cons, foldl_min_all_eq hrep, foldl_max_all_eq hrep]
      simp
    rw [List.replicate_succ]
    rw [show popularityColors (v :: List.replicate j v) =
        some ((v :: List.replicate j v).map fun u =>
          get_visitor_color (visitorNorm (v :: List.replicate j v) u)) from rfl]
    rw [List.map_cons, List.map_replicate, hnormv]
    rfl
  · obtain ⟨j, rfl⟩ : ∃ j, m = j + 1 := ⟨m - 1, by omega⟩
    rw [List.replicate_succ]
    rw [show changeColors (c :: List.replicate j c) =
        some ((c :: List.replicate j c).map fun d =>
          get_change_color (changeNorm (c :: List.replicate j c) d)) from rfl]
    rw [List.map_cons, List.map_replicate]
    rfl
  · have hsort : sortedDescQ (List.replicate k w) = List.replicate k w := by
      have hp := List.perm_insertionSort (fun a b : ℚ => b ≤ a) (List.replicate k w)
      exact List.eq_replicate.mpr
        ⟨hp.length_eq.trans (List.length_replicate _ _),
         fun b hb => List.eq_of_mem_replicate (hp.mem_iff.mp hb)⟩
    obtain ⟨j, rfl⟩ : ∃ j, k = j + 2 := ⟨k - 2, by omega⟩
    have hrep : ∀ x ∈ List.replicate (j + 1) w, x = w :=
      fun x hx => List.eq_of_mem_replicate hx
    have hsl : secondLargest (List.replicate (j + 2) w) = some w := by
      rw [secondLargest, hsort, List.replicate_succ, List.replicate_succ]
      rfl
    have hmin : pyMin (List.replicate (j + 2) w) = some w := by
      rw [List.replicate_succ]
      show some ((List.replicate (j + 1) w).foldl min w) = some w
      rw [foldl_min_all_eq hrep]
    have hmax : pyMax (List.replicate (j + 2) w) = some w := by
      rw [List.replicate_succ]
      show some ((List.replicate (j + 1) w).foldl max w) = some w
      rw [foldl_max_all_eq hrep]
    simp only [densityNormalize, hsl, hmin, hmax, List.map_replicate]
    simp

/-- C4 witness: degenerate normalization applied to concrete all-equal
feature sets in each variant. -/
theorem c4_degenerate_normalization_witness :
    popularityColors (List.replicate 1 (7 : ℚ)) =
      some (List.replicate 1 (get_visitor_color 0)) ∧
    changeColors (List.replicate 2 (0 : ℚ)) =
      some (List.replicate 2
        (get_change_color (changeNorm (List.replicate 2 (0 : ℚ)) 0))) ∧
    densityNormalize (List.replicate 2 (4 : ℚ)) = some (List.replicate 2 (0, 0, 0)) :=
  c4_degenerate_normalization 7 0 4 1 2 2 (by norm_num) (by norm_num) (by norm_num)

/-- Configured margin fraction (MARGIN_FRACTION = 0.05, ideal model). -/
def marginFraction : ℚ := 1/20

/-- Source: view_scale = 1.0 / (1.0 - MARGIN_FRACTION). -/
def viewScale : ℚ := 1 / (1 - marginFraction)

/-- Normalized device x-coordinate of pixel column j:
np.linspace(-view_scale, view_scale, S) at index j. -/
def gridX (S j : ℕ) : ℚ := -viewScale + j * (2 * viewScale / ((S : ℚ) - 1))

/-- Normalized device y-coordinate of pixel row i:
np.linspace(view_scale, -view_scale, S) at index i. -/
def gridY (S i : ℕ) : ℚ := viewScale - i * (2 * viewScale / ((S : ℚ) - 1))

/-- The on-globe mask: radius_sq = xx**2 + yy**2 <= 1.0 at pixel (i, j),
with xx varying along columns and yy along rows as in np.meshgrid. -/
def onGlobe (S i j : ℕ) : Prop := gridX S j ^ 2 + gridY S i ^ 2 ≤ 1

instance (S i j : ℕ) : Decidable (onGlobe S i j) :=
  inferInstanceAs (Decidable (_ ≤ _))

def LAND_COLOR : Color := (78, 97, 65)

def OCEAN_COLOR : Color := (130, 160, 194)

def SPACE_COLOR : Color := (10, 15, 20)

/-- The np.full space-colored canvas the rasterizer starts from. -/
def spaceCanvas : ℕ → ℕ → Color := fun _ _ => SPACE_COLOR

/-- Per-visible-pixel classification result: LAND if the land classifier
(spatial index plus exact containment, abstracted as a boolean oracle)
accepts the inverse-projected lon/lat of the pixel, OCEAN otherwise. -/
def pointColor (c : ℕ → ℕ → Bool) (i j : ℕ) : Color :=
  if c i j then LAND_COLOR else OCEAN_COLOR

/-- The base map after rasterization: the space canvas with all on-globe
pixels overwritten by their classification colors
(output_image_array[on_globe_mask] = point_colors). -/
def baseMap (S : ℕ) (c : ℕ → ℕ → Bool) (i j : ℕ) : Color :=
  if onGlobe S i j then pointColor c i j else spaceCanvas i j

/-- C5: every pixel whose normalized device coordinates satisfy x^2+y^2 <= 1
is colored LAND or OCEAN and never SPACE; every pixel with x^2+y^2 > 1 is
colored SPACE and never LAND or OCEAN; and every pixel gets exactly one of
the three colors. The land classifier is abstract, so this holds for every
classification outcome. -/
theorem c5_disk_membership (S : ℕ) (hS : 2 ≤ S) (c : ℕ → ℕ → Bool) (i j : ℕ)
    (hi : i < S) (hj : j < S) :
    (gridX S j ^ 2 + gridY S i ^ 2 ≤ 1 →
      (baseMap S c i j = LAND_COLOR ∨ baseMap S c i j = OCEAN_COLOR) ∧
      baseMap S c i j ≠ SPACE_COLOR) ∧
    (1 < gridX S j ^ 2 + gridY S i ^ 2 →
      baseMap S c i j = SPACE_COLOR ∧
      baseMap S c i j ≠ LAND_COLOR ∧ baseMap S c i j ≠ OCEAN_COLOR) ∧
    (baseMap S c i j = LAND_COLOR ∨ baseMap S c i j = OCEAN_COLOR ∨
      baseMap S c i j = SPACE_COLOR) := by
  have hLS : LAND_COLOR ≠ SPACE_COLOR := by decide
  have hOS : OCEAN_COLOR ≠ SPACE_COLOR := by decide
  have hSL : SPACE_COLOR ≠ LAND_COLOR := by decide
  have hSO : SPACE_COLOR ≠ OCEAN_COLOR := by decide
  by_cases hg : onGlobe S i j
  · have hb : baseMap S c i j = pointColor c i j := if_pos hg
    refine ⟨fun _ => ?_, fun hout => absurd hg (by rw [onGlobe]; exact not_le.mpr hout), ?_⟩
    · rw [hb, pointColor]
      by_cases hc : c i j
      · exact ⟨Or.inl (if_pos hc), by rw [if_pos hc]; exact hLS⟩
      · exact ⟨Or.inr (if_neg hc), by rw [if_neg hc]; exact hOS⟩
    · rw [hb, pointColor]
      by_cases hc : c i j
      · exact Or.inl (if_pos hc)
      · exact Or.inr (Or.inl (if_neg hc))
  · have hb : baseMap S c i j = SPACE_COLOR := if_neg hg
    refine ⟨fun hin => absurd (show onGlobe S i j from hin) hg, fun _ => ?_, ?_⟩
    · exact ⟨hb, by rw [hb]; exact hSL, by rw [hb]; exact hSO⟩
    · exact Or.inr (Or.inr hb)

/-- C5 witness: disk membership applied to the corner pixel (0, 0) of a
2 by 2 canvas with an all-land classifier; the corner lies outside the
globe disk and is painted SPACE. -/
theorem c5_disk_membership_witness :
    (gridX 2 0 ^ 2 + gridY 2 0 ^ 2 ≤ 1 →
      (baseMap 2 (fun _ _ => true) 0 0 = LAND_COLOR ∨
        baseMap 2 (fun _ _ => true) 0 0 = OCEAN_COLOR) ∧
      baseMap 2 (fun _ _ => true) 0 0 ≠ SPACE_COLOR) ∧
    (1 < gridX 2 0 ^ 2 + gridY 2 0 ^ 2 →
      baseMap 2 (fun _ _ => true) 0 0 = SPACE_COLOR ∧
      baseMap 2 (fun _ _ => true) 0 0 ≠ LAND_COLOR ∧
      baseMap 2 (fun _ _ => true) 0 0 ≠ OCEAN_COLOR) ∧
    (baseMap 2 (fun _ _ => true) 0 0 = LAND_COLOR ∨
      baseMap 2 (fun _ _ => true) 0 0 = OCEAN_COLOR ∨
      baseMap 2 (fun _ _ => true) 0 0 = SPACE_COLOR) :=
  c5_disk_membership 2 (by norm_num) (fun _ _ => true) 0 0 (by norm_num) (by norm_num)

/-- View scale in an arbitrary linear ordered field (the scripts compute it
as a float; geometry statements are made over any such field so they cover
the reals while witnesses evaluate over the rationals). -/
def viewScaleF (K : Type) [LinearOrderedField K] : K := 1 / (1 - 1/20)

/-- Source: px = (x_proj / view_scale + 1) * 0.5 * SUPER_SAMPLED_SIZE. -/
def pxOf {K : Type} [LinearOrderedField K] (S : ℕ) (x : K) : K :=
  (x / viewScaleF K + 1) * (1/2) * (S : K)

/-- Source: py = (-y_proj / view_scale + 1) * 0.5 * SUPER_SAMPLED_SIZE. -/
def pyOf {K : Type} [LinearOrderedField K] (S : ℕ) (y : K) : K :=
  (-y / viewScaleF K + 1) * (1/2) * (S : K)

/-- Source: globe_pixel_radius = (SUPER_SAMPLED_SIZE / 2.0) / view_scale. -/
def globePixelRadius {K : Type} [LinearOrderedField K] (S : ℕ) : K :=
  ((S : K) / 2) / viewScaleF K

/-- Source: park_pixel_radius =
(PARK_CIRCLE_RADIUS_KM / EARTH_RADIUS_KM) * globe_pixel_radius
with PARK_CIRCLE_RADIUS_KM = 50 and EARTH_RADIUS_KM = 6371.0. -/
def parkPixelRadius {K : Type} [LinearOrderedField K] (S : ℕ) : K :=
  (50 / 6371) * globePixelRadius S

/-- The filled disk drawn for a visible park with view-space vector w:
draw.ellipse over the bounding box centered at (px, py) with radius
park_pixel_radius paints exactly the canvas points within that radius. -/
def parkDiskPaints {K : Type} [LinearOrderedField K] (S : ℕ)
    (w : K × K × K) (p : K × K) : Prop :=
  (p.1 - pxOf S w.1) ^ 2 + (p.2 - pyOf S w.2.1) ^ 2 ≤ parkPixelRadius S ^ 2

/-- C6 counterexample: the unit view-space vector (4/9, 8/9, 1/9) has
positive z, so its park is drawn, yet its filled disk paints the canvas
point (2919, 307), a pixel of the 4096-canvas whose normalized device
coordinates lie strictly outside the globe disk and which the rasterizer
therefore painted SPACE. -/
theorem c6_counterexample :
    ((4 : ℚ)/9) ^ 2 + ((8 : ℚ)/9) ^ 2 + ((1 : ℚ)/9) ^ 2 = 1 ∧
    (0 : ℚ) < 1/9 ∧
    ¬ onGlobe 4096 307 2919 ∧
    baseMap 4096 (fun _ _ => true) 307 2919 = SPACE_COLOR ∧
    parkDiskPaints 4096 ((4 : ℚ)/9, (8 : ℚ)/9, (1 : ℚ)/9) (2919, 307) := by
  have hng : ¬ onGlobe 4096 307 2919 := by
    rw [onGlobe, gridX, gridY, viewScale, marginFraction]
    norm_num
  refine ⟨by norm_num, by norm_num, hng, if_neg hng, ?_⟩
  rw [parkDiskPaints, pxOf, pyOf, parkPixelRadius, globePixelRadius, viewScaleF]
  norm_num

lemma sq_dist_triangle {K : Type} [LinearOrderedField K] (c1 c2 d1 d2 R r : K)
    (hR : 0 ≤ R) (hr : 0 ≤ r) (hc : c1 ^ 2 + c2 ^ 2 ≤ R ^ 2)
    (hd : d1 ^ 2 + d2 ^ 2 ≤ r ^ 2) :
    (c1 + d1) ^ 2 + (c2 + d2) ^ 2 ≤ (R + r) ^ 2 := by
  have hcs : (c1 * d1 + c2 * d2) ^ 2 ≤ (c1 ^ 2 + c2 ^ 2) * (d1 ^ 2 + d2 ^ 2) := by
    nlinarith [sq_nonneg (c1 * d2 - c2 * d1)]
  have hmul : (c1 ^ 2 + c2 ^ 2) * (d1 ^ 2 + d2 ^ 2) ≤ R ^ 2 * r ^ 2 :=
    mul_le_mul hc hd (by positivity) (by positivity)
  have hs : c1 * d1 + c2 * d2 ≤ R * r := by
    rcases le_or_lt (c1 * d1 + c2 * d2) 0 with h | h
    · exact h.trans (mul_nonneg hR hr)
    · nlinarith [hcs, hmul, mul_nonneg hR hr]
  nlinarith [hs, hc, hd]

/-- C6 amended: overlay drawing stays within park-marker reach of the globe
disk. For every drawn feature (unit view-space vector with z strictly
positive) every painted canvas point lies within pixel distance
globe_pixel_radius + park_pixel_radius of the canvas center; painted points
can exceed the globe disk itself by up to the marker radius (the code clips
to the canvas, not to the globe disk). -/
theorem c6_overlay_near_disk {K : Type} [LinearOrderedField K] (S : ℕ)
    (x y z : K) (hunit : x ^ 2 + y ^ 2 + z ^ 2 = 1) (hz : 0 < z)
    (u v : K) (hp : parkDiskPaints S (x, y, z) (u, v)) :
    (u - (S : K) / 2) ^ 2 + (v - (S : K) / 2) ^ 2 ≤
      (globePixelRadius S + parkPixelRadius S) ^ 2 := by
  have hvs : (0 : K) < viewScaleF K := by
    rw [viewScaleF]
    norm_num
  have hR : (0 : K) ≤ globePixelRadius S := by
    rw [globePixelRadius]
    positivity
  have hr : (0 : K) ≤ parkPixelRadius S := by
    rw [parkPixelRadius]
    have : (0 : K) ≤ (50 : K) / 6371 := by norm_num
    exact mul_nonneg this hR
  have hpx : pxOf S x = (S : K) / 2 + x * globePixelRadius S := by
    rw [pxOf, globePixelRadius]
    field_simp
    ring
  have hpy : pyOf S y = (S : K) / 2 - y * globePixelRadius S := by
    rw [pyOf, globePixelRadius]
    field_simp
    ring
  have hxy : x ^ 2 + y ^ 2 ≤ 1 := by nlinarith [sq_nonneg z]
  have hc : (x * globePixelRadius S) ^ 2 + (-(y * globePixelRadius S)) ^ 2 ≤
      globePixelRadius S ^ 2 := by
    nlinarith [sq_nonneg (globePixelRadius S : K), hxy,
      mul_le_mul_of_nonneg_right hxy (sq_nonneg (globePixelRadius S : K))]
  have hd : (u - pxOf S x) ^ 2 + (v - pyOf S y) ^ 2 ≤ parkPixelRadius S ^ 2 := hp
  have htr := sq_dist_triangle (x * globePixelRadius S) (-(y * globePixelRadius S))
    (u - pxOf S x) (v - pyOf S y) (globePixelRadius S) (parkPixelRadius S) hR hr hc hd
  have e1 : u - (S : K) / 2 = x * globePixelRadius S + (u - pxOf S x) := by
    rw [hpx]
    ring
  have e2 : v - (S : K) / 2 = -(y * globePixelRadius S) + (v - pyOf S y) := by
    rw [hpy]
    ring
  rw [e1, e2]
  exact htr

/-- C6 witness: the amended overlay bound applied to the drawn feature
(4/9, 8/9, 1/9) and the painted canvas point (2919, 307) over the
rationals. -/
theorem c6_overlay_near_disk_witness :
    ((2919 : ℚ) - ((4096 : ℕ) : ℚ) / 2) ^ 2 + ((307 : ℚ) - ((4096 : ℕ) : ℚ) / 2) ^ 2 ≤
      ((globePixelRadius 4096 : ℚ) + parkPixelRadius 4096) ^ 2 :=
  c6_overlay_near_disk 4096 ((4 : ℚ)/9) ((8 : ℚ)/9) ((1 : ℚ)/9)
    (by norm_num) (by norm_num) 2919 307
    (by
      rw [parkDiskPaints, pxOf, pyOf, parkPixelRadius, globePixelRadius, viewScaleF]
      norm_num)

/-- Rotation about the viewing axis (0, 0, 1): scipy
R.from_euler('z', angle) with a = cos(angle) and b = sin(angle). The z
component is untouched. -/
def rollZ {K : Type} [LinearOrderedField K] (a b : K) (w : K × K × K) : K × K × K :=
  (a * w.1 - b * w.2.1, b * w.1 + a * w.2.1, w.2.2)

/-- Source: rotation = r_roll * r_aim (scipy composition applies r_aim
first); (a, b) are cosine and sine of the roll angle, which the source sets
to the negated configured roll in radians; Raim is the align_vectors
rotation taking the configured target vector onto (0, 0, 1). -/
def cameraApply {K : Type} [LinearOrderedField K] (a b : K)
    (Raim : K × K × K → K × K × K) (w : K × K × K) : K × K × K :=
  rollZ a b (Raim w)

/-- Source: rotation.inv() applied to a vector:
(r_roll * r_aim).inv() = r_aim.inv() * r_roll.inv(), and the inverse of the
roll by angle t is the roll by -t, with cosine a and sine -b. -/
def cameraApplyInv {K : Type} [LinearOrderedField K] (a b : K)
    (RaimInv : K × K × K → K × K × K) (w : K × K × K) : K × K × K :=
  RaimInv (rollZ a (-b) w)

/-- Source: VisualizePopularity.py line 197 (and its copies): a park is
drawn exactly when the z component of its camera-rotated vector is strictly
positive. -/
def parkDrawn {K : Type} [LinearOrderedField K]
    (cam : K × K × K → K × K × K) (w : K × K × K) : Prop :=
  0 < (cam w).2.2

/-- C8: the camera rotation is the composition of the aim rotation followed
by the roll about (0, 0, 1) (definition of cameraApply), and applying the
inverse rotation after the forward rotation is the identity - exactly, for
every vector, whenever the roll coefficients satisfy cos^2 + sin^2 = 1 and
the aim rotation has a left inverse. -/
theorem c8_camera_inverse {K : Type} [LinearOrderedField K] (a b : K)
    (hab : a ^ 2 + b ^ 2 = 1) (Raim RaimInv : K × K × K → K × K × K)
    (hinv : ∀ w, RaimInv (Raim w) = w) (v : K × K × K) :
    cameraApplyInv a b RaimInv (cameraApply a b Raim v) = v := by
  have hroll : ∀ w : K × K × K, rollZ a (-b) (rollZ a b w) = w := by
    intro w
    obtain ⟨w1, w2, w3⟩ := w
    simp only [rollZ, Prod.mk.injEq]
    refine ⟨?_, ?_, trivial⟩
    · linear_combination w1 * hab
    · linear_combination w2 * hab
  rw [cameraApply, cameraApplyInv, hroll, hinv]

/-- C8 witness: the inverse law at roll coefficients (3/5, 4/5), identity
aim rotation and the vector (1, 2, 3) over the rationals. -/
theorem c8_camera_inverse_witness :
    cameraApplyInv ((3 : ℚ)/5) ((4 : ℚ)/5) id
      (cameraApply ((3 : ℚ)/5) ((4 : ℚ)/5) id ((1 : ℚ), (2 : ℚ), (3 : ℚ))) =
      ((1 : ℚ), (2 : ℚ), (3 : ℚ)) :=
  c8_camera_inverse ((3 : ℚ)/5) ((4 : ℚ)/5) (by norm_num) id id
    (fun _ => rfl) ((1 : ℚ), (2 : ℚ), (3 : ℚ))

/-- C7: a park is drawn if and only if its camera-rotated z component is
strictly positive (z = 0 is culled); in particular, for every aim rotation
taking the camera target to (0, 0, 1) and acting linearly on the antipode,
and for every roll, the feature at the camera center is always drawn and
the feature at the exact antipode is never drawn. -/
theorem c7_visibility_rule {K : Type} [LinearOrderedField K] (a b : K)
    (Raim : K × K × K → K × K × K) (target : K × K × K)
    (haim : Raim target = (0, 0, 1))
    (hneg : Raim (-target) = -Raim target) :
    parkDrawn (cameraApply a b Raim) target ∧
    ¬ parkDrawn (cameraApply a b Raim) (-target) ∧
    (∀ w, (cameraApply a b Raim w).2.2 = 0 → ¬ parkDrawn (cameraApply a b Raim) w) ∧
    (∀ w, parkDrawn (cameraApply a b Raim) w ↔ 0 < (cameraApply a b Raim w).2.2) := by
  have h1 : (cameraApply a b Raim target).2.2 = 1 := by
    rw [cameraApply, haim]
    rfl
  have h2 : (cameraApply a b Raim (-target)).2.2 = -1 := by
    rw [cameraApply, hneg, haim]
    rfl
  refine ⟨?_, ?_, ?_, fun w => Iff.rfl⟩
  · show 0 < (cameraApply a b Raim target).2.2
    rw [h1]
    exact zero_lt_one
  · show ¬ 0 < (cameraApply a b Raim (-target)).2.2
    rw [h2]
    norm_num
  · intro w hw
    show ¬ 0 < (cameraApply a b Raim w).2.2
    rw [hw]
    norm_num

/-- C7 witness: the visibility rule at roll coefficients (3/5, 4/5) with the
identity aim rotation and target (0, 0, 1): the center feature is drawn, its
antipode is not. -/
theorem c7_visibility_rule_witness :
    parkDrawn (cameraApply ((3 : ℚ)/5) ((4 : ℚ)/5) id) ((0 : ℚ), (0 : ℚ), (1 : ℚ)) ∧
    ¬ parkDrawn (cameraApply ((3 : ℚ)/5) ((4 : ℚ)/5) id)
      (-((0 : ℚ), (0 : ℚ), (1 : ℚ))) :=
  ⟨(c7_visibility_rule ((3 : ℚ)/5) ((4 : ℚ)/5) id ((0 : ℚ), (0 : ℚ), (1 : ℚ)) rfl rfl).1,
   (c7_visibility_rule ((3 : ℚ)/5) ((4 : ℚ)/5) id ((0 : ℚ), (0 : ℚ), (1 : ℚ)) rfl rfl).2.1⟩

instance (S : ℕ) (w : ℚ × ℚ × ℚ) (p : ℚ × ℚ) : Decidable (parkDiskPaints S w p) :=
  inferInstanceAs (Decidable (_ ≤ _))

/-- A park record as handed to generate_map: its camera-rotated view vector
and its resolved color. -/
structure ParkRec where
  vec : ℚ × ℚ × ℚ
  color : Color

/-- Drawing one park onto a canvas: visible parks (z strictly positive)
paint their filled disk, invisible parks change nothing. -/
def drawParkOn (S : ℕ) (pk : ParkRec) (img : ℚ × ℚ → Color) : ℚ × ℚ → Color :=
  if 0 < pk.vec.2.2 then
    fun p => if parkDiskPaints S pk.vec p then pk.color else img p
  else img

/-- The overlay loop of generate_map: parks drawn in input order,
last-drawn wins. -/
def drawParks (S : ℕ) (ps : List ParkRec) (img : ℚ × ℚ → Color) : ℚ × ℚ → Color :=
  ps.foldl (fun acc pk => drawParkOn S pk acc) img

/-- A heap of mutable PIL images, so that aliasing and in-place mutation are
explicit; image handles are heap indices. -/
abbrev Heap := List (ℚ × ℚ → Color)

/-- Reading an image from the heap (out-of-range reads never occur in the
modelled runs; they default to an all-space canvas). -/
def heapGet (h : Heap) (r : ℕ) : ℚ × ℚ → Color :=
  h.getD r (fun _ => SPACE_COLOR)

/-- Source: VisualizeChange.py generate_map, lines 96-137. The function
copies the base map into a fresh image (img = base_map_image.copy(),
modelled as appending the copied canvas at a fresh heap index), then draws
all visible parks into that fresh image only (ImageDraw.Draw(img) mutates
img in place, modelled as a set at the fresh index). The resize and save
only consume the finished overlay and touch no heap slot. Returns the
handle of the drawn image and the heap after the call. -/
def generate_map (S : ℕ) (ps : List ParkRec) (h : Heap) (baseRef : ℕ) : ℕ × Heap :=
  let imgRef := h.length
  let h1 := h ++ [heapGet h baseRef]
  let h2 := h1.set imgRef (drawParks S ps (heapGet h1 imgRef))
  (imgRef, h2)

lemma generate_map_preserves_base (S : ℕ) (ps : List ParkRec) (h : Heap) (r : ℕ)
    (hr : r < h.length) :
    heapGet (generate_map S ps h r).2 r = heapGet h r := by
  simp only [generate_map, heapGet, List.getD_eq_getElem?_getD, List.getElem?_set]
  rw [if_neg (by omega : ¬ h.length = r), List.getElem?_append, if_pos hr]

lemma generate_map_reads_clean (S : ℕ) (ps : List ParkRec) (h : Heap) (r : ℕ) :
    heapGet (generate_map S ps h r).2 (generate_map S ps h r).1 =
      drawParks S ps (heapGet h r) := by
  have hcopy : heapGet (h ++ [heapGet h r]) h.length = heapGet h r := by
    rw [heapGet, List.getD_eq_getElem?_getD, List.getElem?_concat_length]
    rfl
  simp only [generate_map]
  rw [heapGet, List.getD_eq_getElem?_getD, List.getElem?_set, if_pos rfl,
    if_pos (by simp : h.length < (h ++ [heapGet h r]).length)]
  rw [Option.getD_some, hcopy]

/-- C9: generate_map draws on a clone of the base map. After the absolute
change map is produced, the base image slot is unchanged, the produced image
is exactly the overlay drawn on the clean base, and the subsequent
percent change call on the returned heap again draws on the identical clean
base. -/
theorem c9_base_map_cloned (S : ℕ) (ps1 ps2 : List ParkRec) (h : Heap) (baseRef : ℕ)
    (hr : baseRef < h.length) :
    heapGet (generate_map S ps1 h baseRef).2 baseRef = heapGet h baseRef ∧
    heapGet (generate_map S ps1 h baseRef).2 (generate_map S ps1 h baseRef).1 =
      drawParks S ps1 (heapGet h baseRef) ∧
    heapGet (generate_map S ps2 (generate_map S ps1 h baseRef).2 baseRef).2
        (generate_map S ps2 (generate_map S ps1 h baseRef).2 baseRef).1 =
      drawParks S ps2 (heapGet h baseRef) := by
  refine ⟨generate_map_preserves_base S ps1 h baseRef hr,
    generate_map_reads_clean S ps1 h baseRef, ?_⟩
  rw [generate_map_reads_clean S ps2 (generate_map S ps1 h baseRef).2 baseRef,
    generate_map_preserves_base S ps1 h baseRef hr]

/-- C9 witness: the cloning theorem on a one-image heap with empty park
lists. -/
theorem c9_base_map_cloned_witness :
    heapGet (generate_map 1 [] ([fun _ => SPACE_COLOR] : Heap) 0).2 0 =
      heapGet ([fun _ => SPACE_COLOR] : Heap) 0 ∧
    heapGet (generate_map 1 [] ([fun _ => SPACE_COLOR] : Heap) 0).2
        (generate_map 1 [] ([fun _ => SPACE_COLOR] : Heap) 0).1 =
      drawParks 1 [] (heapGet ([fun _ => SPACE_COLOR] : Heap) 0) ∧
    heapGet (generate_map 1 []
        (generate_map 1 [] ([fun _ => SPACE_COLOR] : Heap) 0).2 0).2
        (generate_map 1 [] (generate_map 1 [] ([fun _ => SPACE_COLOR] : Heap) 0).2 0).1 =
      drawParks 1 [] (heapGet ([fun _ => SPACE_COLOR] : Heap) 0) :=
  c9_base_map_cloned 1 [] [] ([fun _ => SPACE_COLOR] : Heap) 0 (by norm_num)
